import Mathlib

/-!
Verification of the BibleMemorizer recitation-scoring and progress-aggregation
core against its specification.

Modelling conventions:
* Python strings are modelled as lists of Unicode code points (`List Nat`);
  `str.lower` is modelled on the ASCII range, `str.strip` over the ASCII
  whitespace characters.
* Python numbers (scores, averages) are modelled as rationals (`ℚ`), so the
  arithmetic of the incremental-mean formula is exact.
* Timestamps (`datetime.now()` / SQL `CURRENT_TIMESTAMP`) are modelled as an
  abstract `now : Nat` parameter passed to each operation.
* Database rows are modelled as Lean structures holding the columns the
  modelled code reads or writes; SQL insert/update become functional record
  construction/update.
-/

namespace BibleMemorizer

/-- Model of Python `str.lower` on one code point (ASCII range: `A`-`Z`
map to `a`-`z`, everything else is unchanged). -/
def lowerCode (n : Nat) : Nat :=
  if 65 ≤ n ∧ n ≤ 90 then n + 32 else n

/-- `text.lower()` over a whole string. -/
def pyLower (s : List Nat) : List Nat := s.map lowerCode

/-- ASCII whitespace, as stripped by Python `str.strip()` with no argument:
space, tab, newline, carriage return, vertical tab, form feed. -/
def isPySpace (n : Nat) : Bool :=
  n == 32 || n == 9 || n == 10 || n == 13 || n == 11 || n == 12

/-- Model of Python `str.strip()`: drop leading and trailing whitespace. -/
def pyStrip (s : List Nat) : List Nat :=
  ((s.dropWhile isPySpace).reverse.dropWhile isPySpace).reverse

/-- The code points of the regex character class in `normalize_string`
(src/routes/api.py:157):
`. , / # ! $ % ^ & * ; : \x7b \x7d = _ backtick ~ ( ) " ' ?` together with
U+00E2, U+20AC and U+201D (the bytes of a mojibake-encoded em-dash as they
appear in the source file). -/
def punctCodes : List Nat :=
  [46, 44, 47, 35, 33, 36, 37, 94, 38, 42, 59, 58, 123, 125, 61, 95, 96,
   126, 40, 41, 34, 39, 226, 8364, 8221, 63]

/-- Model of `re.sub(CLASS, '', s)` for a character class: remove every
occurrence of each listed code point. -/
def reSubPunct (s : List Nat) : List Nat :=
  s.filter (fun c => !(punctCodes.contains c))

/-- Fuel-indexed worker for Python `str.replace(old, new)`: scan left to
right; where `old` occurs (non-overlapping), emit `new` and skip past it,
otherwise copy one character.  The fuel only needs to dominate the length of
the string (each step consumes at least one character). -/
def pyReplaceAux : Nat → List Nat → List Nat → List Nat → List Nat
  | 0, _, _, s => s
  | _ + 1, _, _, [] => []
  | fuel + 1, old, new, c :: rest =>
    if !old.isEmpty && old.isPrefixOf (c :: rest) then
      new ++ pyReplaceAux fuel old new ((c :: rest).drop old.length)
    else
      c :: pyReplaceAux fuel old new rest

/-- Model of Python `s.replace(old, new)` (left-to-right, non-overlapping,
single pass). -/
def pyReplace (old new s : List Nat) : List Nat :=
  pyReplaceAux s.length old new s

/-- Model of `normalize_string` (src/routes/api.py:155-157):

`re.sub(CLASS, '', text.lower().strip()).replace('-', ' ').replace('  ', ' ')`

i.e. lower-case, then strip leading/trailing whitespace, then remove the
punctuation class, then replace hyphens (code 45) by spaces (code 32), then
collapse literal two-space sequences in one pass.  Note the strip happens
before punctuation removal and there is no final strip. -/
def normalize_string (text : List Nat) : List Nat :=
  pyReplace [32, 32] [32] (pyReplace [45] [32] (reSubPunct (pyStrip (pyLower text))))

/-- One-character replacement of a hyphen by a space, the pointwise effect
of `.replace('-', ' ')`. -/
def hyphenRepl (n : Nat) : Nat := if n == 45 then 32 else n

/-- Direct recursive form of a single left-to-right pass replacing the
two-space sequence by one space (the effect of `.replace('  ', ' ')`). -/
def collapseDoubleSpace : List Nat → List Nat
  | [] => []
  | [c] => [c]
  | c :: d :: t =>
    if c == 32 && d == 32 then 32 :: collapseDoubleSpace t
    else c :: collapseDoubleSpace (d :: t)

/-- Does the string contain two consecutive spaces? -/
def hasDoubleSpace : List Nat → Bool
  | c :: d :: t => (c == 32 && d == 32) || hasDoubleSpace (d :: t)
  | _ => false

/-- Does the string start with a whitespace character? -/
def startsWithSpaceB (s : List Nat) : Bool :=
  match s with
  | [] => false
  | c :: _ => isPySpace c

/-- Does the string end with a whitespace character? -/
def endsWithSpaceB (s : List Nat) : Bool := startsWithSpaceB s.reverse

/-- Worker for Python `str.split()` with no argument: split on runs of
whitespace, discarding empty pieces.  The accumulator holds the current
word reversed. -/
def splitWsAux : List Nat → List Nat → List (List Nat)
  | [], acc => if acc.isEmpty then [] else [acc.reverse]
  | c :: rest, acc =>
    if isPySpace c then
      if acc.isEmpty then splitWsAux rest [] else acc.reverse :: splitWsAux rest []
    else
      splitWsAux rest (c :: acc)

/-- Model of Python `s.split()`. -/
def splitWs (s : List Nat) : List (List Nat) := splitWsAux s []

/-- Convenience: the code points of a Lean string literal, for concrete
test inputs. -/
def strCodes (s : String) : List Nat := s.toList.map Char.toNat

/-- The pipeline the specification describes for `normalize` (lower-case;
strip punctuation; hyphens to spaces; collapse double spaces; trim last),
written from the spec's words for comparison with `normalize_string`. -/
def normalizeSpecOrder (text : List Nat) : List Nat :=
  pyStrip (pyReplace [32, 32] [32] (pyReplace [45] [32] (reSubPunct (pyLower text))))

/-- A token produced by `splitWs`. -/
abbrev Word := List Nat

/-- `' '.join(words)`. -/
def joinSpace (ws : List Word) : Word := List.intercalate [32] ws

/-- The `error_type` column of a `recitation_errors` row. -/
inductive ErrorType where
  | missing_word
  | wrong_word
  | extra_word
deriving DecidableEq

/-- One `recitation_errors` row as written by `process_recitation_errors`
(src/routes/api.py:134-150), minus the `attempt_id` foreign key. -/
structure RecitationError where
  error_type : ErrorType
  position : Nat
  expected_word : Option Word
  actual_word : Option Word
  context_before : Word
  context_after : Word
deriving DecidableEq

/-- The first loop of `process_recitation_errors` (src/routes/api.py:119-139):
for each index `i` into the reference tokens, emit a row when the submission
is exhausted or disagrees at `i`.  Python slice `correct_words[max(0,i-3):i]`
is `(take i).drop (i-3)` and `correct_words[i+1:min(len,i+4)]` is
`(take (i+4)).drop (i+1)`. -/
def mainErrors (user_words correct_words : List Word) : List RecitationError :=
  (List.range correct_words.length).filterMap (fun i =>
    let correct_word := correct_words.getD i []
    if i ≥ user_words.length ∨ user_words.getD i [] ≠ correct_word then
      some { error_type := if i ≥ user_words.length then ErrorType.missing_word
                           else ErrorType.wrong_word
             position := i
             expected_word := some correct_word
             actual_word := if i ≥ user_words.length then none
                            else some (user_words.getD i [])
             context_before := joinSpace ((correct_words.take i).drop (i - 3))
             context_after := joinSpace ((correct_words.take (i + 4)).drop (i + 1)) }
    else none)

/-- The second loop of `process_recitation_errors` (src/routes/api.py:141-150):
when the submission is longer than the reference, one `extra_word` row per
trailing submitted token, at positions `len(correct_words)` upward; its
before-context is `correct_words[max(0,len-3):]` and after-context empty. -/
def extraErrors (user_words correct_words : List Word) : List RecitationError :=
  if user_words.length > correct_words.length then
    (List.range' correct_words.length (user_words.length - correct_words.length)).map
      (fun i =>
        { error_type := ErrorType.extra_word
          position := i
          expected_word := none
          actual_word := some (user_words.getD i [])
          context_before := joinSpace (correct_words.drop (correct_words.length - 3))
          context_after := [] })
  else []

/-- The token-level body of `process_recitation_errors`: the full ordered
list of rows it inserts for given submitted and reference token lists. -/
def align (user_words correct_words : List Word) : List RecitationError :=
  mainErrors user_words correct_words ++ extraErrors user_words correct_words

/-- Model of `process_recitation_errors` (src/routes/api.py:108-153): return
immediately when the comparison text is empty, otherwise normalize and split
both texts and insert the aligned error rows. -/
def process_recitation_errors (user_text correct_text : List Nat) :
    List RecitationError :=
  if correct_text = [] then []
  else
    align (splitWs (normalize_string user_text))
      (splitWs (normalize_string correct_text))

/-- The per-index case split of the alignment, as the claim words it:
`missing_word` when `i` is beyond the submission; else `wrong_word` when the
tokens differ; else nothing.  Contexts are up to 3 reference tokens before
and after `i`, joined by single spaces. -/
def alignSpecMain (sub ref : List Word) : List RecitationError :=
  (List.range ref.length).filterMap (fun i =>
    if sub.length ≤ i then
      some { error_type := ErrorType.missing_word
             position := i
             expected_word := some (ref.getD i [])
             actual_word := none
             context_before := joinSpace ((ref.take i).drop (i - 3))
             context_after := joinSpace ((ref.take (i + 4)).drop (i + 1)) }
    else if sub.getD i [] ≠ ref.getD i [] then
      some { error_type := ErrorType.wrong_word
             position := i
             expected_word := some (ref.getD i [])
             actual_word := some (sub.getD i [])
             context_before := joinSpace ((ref.take i).drop (i - 3))
             context_after := joinSpace ((ref.take (i + 4)).drop (i + 1)) }
    else none)

/-- The trailing part of the alignment, as the claim words it: when the
submission is longer, one `extra_word` row per trailing submitted token,
positioned at the reference-relative index that would follow; before-context
is the last up to 3 reference tokens, after-context empty. -/
def alignSpecExtras (sub ref : List Word) : List RecitationError :=
  if ref.length < sub.length then
    (List.range (sub.length - ref.length)).map (fun k =>
      { error_type := ErrorType.extra_word
        position := ref.length + k
        expected_word := none
        actual_word := some (sub.getD (ref.length + k) [])
        context_before := joinSpace (ref.drop (ref.length - 3))
        context_after := [] })
  else []

/-- The claim's description of `align`, assembled in index order. -/
def alignSpec (sub ref : List Word) : List RecitationError :=
  alignSpecMain sub ref ++ alignSpecExtras sub ref

/-- The `improvement_trend` column of a `student_progress` row. -/
inductive Trend where
  | improving
  | declining
  | stable
deriving DecidableEq

/-- One `student_progress` row as read and written by
`StudentProgress.update_progress` (src/models/verse.py:160-214), minus the
key columns.  Rows created by this code always carry numeric
`average_score` and `latest_score`, and for a numeric `x` Python's
`x or 0` equals `x` (`0 or 0` is `0`), so those two NULL-guards of the
source are identities here and the fields are plain rationals. -/
structure ProgressSummary where
  total_attempts : Nat
  best_score : ℚ
  latest_score : ℚ
  average_score : ℚ
  is_memorized : Bool
  first_memorized_at : Option Nat
  last_attempt_at : Nat
  improvement_trend : Trend
deriving DecidableEq

/-- Model of `StudentProgress.update_progress` (src/models/verse.py:162-214).
`current` is the row fetched for the (student, verse) pair, `none` when no
row exists yet; `now` stands for both `datetime.now().isoformat()` and SQL
`CURRENT_TIMESTAMP`. -/
def update_progress (current : Option ProgressSummary) (score : ℚ)
    (is_passing : Bool) (now : Nat) : ProgressSummary :=
  match current with
  | some cur =>
    { total_attempts := cur.total_attempts + 1
      best_score := max cur.best_score score
      latest_score := score
      average_score :=
        (cur.average_score * cur.total_attempts + score) / (cur.total_attempts + 1)
      is_memorized := is_passing
      first_memorized_at :=
        if is_passing && !cur.is_memorized then some now
        else cur.first_memorized_at
      last_attempt_at := now
      improvement_trend :=
        if cur.latest_score < score then Trend.improving
        else if score < cur.latest_score then Trend.declining
        else Trend.stable }
  | none =>
    { total_attempts := 1
      best_score := score
      latest_score := score
      average_score := score
      is_memorized := is_passing
      first_memorized_at := if is_passing then some now else none
      last_attempt_at := now
      improvement_trend := Trend.stable }

/-- Model of the progress-relevant effect of `RecitationAttempt.create`
(src/models/verse.py:112-132): derive the pass flag as `score >= 90` and
fold the attempt into the progress row; returns the pass flag together with
the updated row. -/
def RecitationAttempt.create (score : ℚ) (existing : Option ProgressSummary)
    (now : Nat) : Bool × ProgressSummary :=
  let is_passing := decide (90 ≤ score)
  (is_passing, update_progress existing score is_passing now)

/-- The columns of a `student_progress` row that the summary block of
`get_my_progress` (src/routes/api.py:186-207) reads. -/
structure ProgressRow where
  is_memorized : Bool
  best_score : ℚ
  total_attempts : Nat
deriving DecidableEq

/-- Round a rational to the nearest integer, ties to even — the behaviour
of Python 3 `round` (modelled on exact rationals). -/
def roundHalfEven (q : ℚ) : ℤ :=
  let f := ⌊q⌋
  if q - f < 1 / 2 then f
  else if (1 : ℚ) / 2 < q - f then f + 1
  else if f % 2 = 0 then f else f + 1

/-- Python `round(q, 1)` on exact rationals. -/
def pyRound1 (q : ℚ) : ℚ := (roundHalfEven (q * 10) : ℚ) / 10

/-- The summary dictionary built by `get_my_progress`
(src/routes/api.py:193-207). -/
structure Summary where
  total_verses_attempted : Nat
  verses_memorized : Nat
  average_best_score : ℚ
  total_attempts : Nat
  completion_rate : ℚ
deriving DecidableEq

/-- Model of the summary-statistics block of `get_my_progress`
(src/routes/api.py:186-207).  Inside the non-empty branch
`total_verses > 0` holds, so the source's inner `if total_verses > 0`
guards are taken. -/
def get_my_progress_summary (progress : List ProgressRow) : Summary :=
  if progress = [] then
    { total_verses_attempted := 0
      verses_memorized := 0
      average_best_score := 0
      total_attempts := 0
      completion_rate := 0 }
  else
    let total_verses := progress.length
    let memorized_count := (progress.filter (fun p => p.is_memorized)).length
    let avg_score := (progress.map (fun p => p.best_score)).sum / total_verses
    { total_verses_attempted := total_verses
      verses_memorized := memorized_count
      average_best_score := pyRound1 avg_score
      total_attempts := (progress.map (fun p => p.total_attempts)).sum
      completion_rate := pyRound1 ((memorized_count : ℚ) / total_verses * 100) }

/-- The request payload of `submit_recitation` (src/routes/api.py:52-100):
the three required fields as options (present or missing), whether the
payload has a `diff` key, and `data.get('correctAnswer', '')`. -/
structure SubmissionData where
  verseId : Option Nat
  recitation : Option (List Nat)
  score : Option ℚ
  hasDiff : Bool
  correctAnswer : List Nat

/-- Outcome of `submit_recitation`: the 400 missing-fields rejection, or
the success response together with the state written (pass flag, error rows,
updated progress row). -/
inductive SubmitOutcome where
  | missingFields
  | success (verseId : Nat) (score : ℚ) (is_passing : Bool)
      (errors : List RecitationError) (summary : ProgressSummary)
deriving DecidableEq

/-- Model of `submit_recitation` (src/routes/api.py:46-106): reject when a
required field is missing, otherwise create the attempt (which derives the
pass flag and updates progress) and, when the payload has a `diff` key, run
`process_recitation_errors` on the recitation against `correctAnswer`.
The source also guards on `attempt_id`, the fresh row id of a successful
insert, which is never falsy here. -/
def submit_recitation (data : SubmissionData)
    (existing : Option ProgressSummary) (now : Nat) : SubmitOutcome :=
  match data.verseId, data.recitation, data.score with
  | some vid, some rec, some score =>
    let created := RecitationAttempt.create score existing now
    let errors :=
      if data.hasDiff then process_recitation_errors rec data.correctAnswer
      else []
    SubmitOutcome.success vid score created.1 errors created.2
  | _, _, _ => SubmitOutcome.missingFields

/-- The error rows persisted by a `submit_recitation` call. -/
def outcomeErrors : SubmitOutcome → List RecitationError
  | SubmitOutcome.missingFields => []
  | SubmitOutcome.success _ _ _ errors _ => errors

/-- Evaluation helper: `pyRound1 q` in terms of the floor of `10 q`. -/
theorem pyRound1_of_floor (q : ℚ) (f : ℤ) (hf : ⌊q * 10⌋ = f) :
    pyRound1 q =
      (if q * 10 - f < 1 / 2 then (f : ℚ)
       else if (1 : ℚ) / 2 < q * 10 - f then (f : ℚ) + 1
       else if f % 2 = 0 then (f : ℚ) else (f : ℚ) + 1) / 10 := by
  unfold pyRound1 roundHalfEven
  simp only [hf]
  split_ifs <;> push_cast <;> ring

/-- Claim C2: updating an existing progress row increments the attempt
count, takes the maximum for the best score, applies the incremental mean
`(old_average * old_total + score) / (old_total + 1)`, sets the latest
score and last-attempt timestamp to the current attempt, and classifies
the trend as improving / declining / stable by comparing the score with the
immediately preceding latest score only. -/
theorem update_progress_existing_fields (cur : ProgressSummary) (score : ℚ)
    (pass : Bool) (now : Nat) :
    (update_progress (some cur) score pass now).total_attempts =
        cur.total_attempts + 1 ∧
    (update_progress (some cur) score pass now).best_score =
        max cur.best_score score ∧
    (update_progress (some cur) score pass now).average_score =
        (cur.average_score * cur.total_attempts + score) / (cur.total_attempts + 1) ∧
    (update_progress (some cur) score pass now).latest_score = score ∧
    (update_progress (some cur) score pass now).last_attempt_at = now ∧
    (update_progress (some cur) score pass now).improvement_trend =
        (if cur.latest_score < score then Trend.improving
         else if score < cur.latest_score then Trend.declining
         else Trend.stable) :=
  ⟨rfl, rfl, rfl, rfl, rfl, rfl⟩

/-- Claim C3 counterexample: after a passing attempt at time 1 (score 95),
a failing attempt at time 2 (score 50), and another passing attempt at
time 3 (score 95), the stored `first_memorized_at` has been overwritten
from `some 1` to `some 3`, so it is not set exactly once. -/
theorem first_memorized_overwritten_cex :
    ((RecitationAttempt.create 95 none 1).2).first_memorized_at = some 1 ∧
    ((RecitationAttempt.create 50
        (some ((RecitationAttempt.create 95 none 1).2)) 2).2).first_memorized_at =
      some 1 ∧
    ((RecitationAttempt.create 95
        (some ((RecitationAttempt.create 50
          (some ((RecitationAttempt.create 95 none 1).2)) 2).2)) 3).2).first_memorized_at =
      some 3 ∧
    (some 3 : Option Nat) ≠ some 1 := by
  decide

/-- Claim C3 (amended): `first_memorized_at` is set to the attempt
timestamp exactly when the attempt passes (score ≥ 90) while the stored
`is_memorized` flag is false — so it is set on the first passing attempt,
but is overwritten again by any passing attempt that follows a failing one;
on all other attempts it is carried over unchanged (and hence never
cleared once set). -/
theorem first_memorized_update_rule (cur : ProgressSummary) (score : ℚ)
    (now : Nat) :
    ((RecitationAttempt.create score (some cur) now).2).first_memorized_at =
      (if 90 ≤ score ∧ cur.is_memorized = false then some now
       else cur.first_memorized_at) := by
  by_cases h : (90 : ℚ) ≤ score <;> by_cases m : cur.is_memorized <;>
    simp [RecitationAttempt.create, update_progress, h, m]

/-- Claim C4: after every update of an existing progress row the stored
`is_memorized` flag equals the current attempt's pass flag (no OR with the
previous value); in particular it flips from true back to false when a
failing attempt (score 80) follows a passing one (score 95). -/
theorem is_memorized_equals_current_pass :
    (∀ (cur : ProgressSummary) (score : ℚ) (now : Nat),
      ((RecitationAttempt.create score (some cur) now).2).is_memorized =
        (RecitationAttempt.create score (some cur) now).1) ∧
    ((RecitationAttempt.create 95 none 1).2).is_memorized = true ∧
    ((RecitationAttempt.create 80
        (some ((RecitationAttempt.create 95 none 1).2)) 2).2).is_memorized =
      false :=
  ⟨fun _ _ _ => rfl, by decide, by decide⟩

/-- Claim C5: the first recorded attempt for a pair with no existing row
creates a progress row with one attempt, best = latest = average = score,
`is_memorized` equal to the derived pass flag (score ≥ 90),
`first_memorized_at` set to the attempt timestamp exactly when passing,
and a stable trend. -/
theorem first_attempt_creates_summary (score : ℚ) (now : Nat) :
    (RecitationAttempt.create score none now).2 =
      { total_attempts := 1
        best_score := score
        latest_score := score
        average_score := score
        is_memorized := decide (90 ≤ score)
        first_memorized_at := if 90 ≤ score then some now else none
        last_attempt_at := now
        improvement_trend := Trend.stable } := by
  by_cases h : (90 : ℚ) ≤ score <;>
    simp [RecitationAttempt.create, update_progress, h]

/-- Claim C6 counterexample: a submission with score 150 (outside [0,100])
against verse id 999 — no verse table is even consulted — is accepted:
`submit_recitation` returns success and a progress row recording the
out-of-range score is created, instead of rejecting the input. -/
theorem invalid_score_accepted_cex :
    submit_recitation
      { verseId := some 999
        recitation := some (strCodes ("for god"))
        score := some 150
        hasDiff := false
        correctAnswer := [] } none 0 =
    SubmitOutcome.success 999 150 true []
      { total_attempts := 1
        best_score := 150
        latest_score := 150
        average_score := 150
        is_memorized := true
        first_memorized_at := some 0
        last_attempt_at := 0
        improvement_trend := Trend.stable } := by
  decide

/-- Claim C6 (amended): `submit_recitation` validates only the presence of
the required fields `verseId`, `recitation` and `score`: a submission
missing one of them is rejected before any state is written, while a
submission with all three present — even one whose score lies outside
[0,100], and regardless of whether the referenced passage exists — is
accepted, the attempt recorded and the progress row updated, with no
"invalid input" signal. -/
theorem no_validation_beyond_presence (vid : Nat) (rec : List Nat)
    (score : ℚ) (d : Bool) (ca : List Nat)
    (existing : Option ProgressSummary) (now : Nat)
    (_h : ¬(0 ≤ score ∧ score ≤ 100)) :
    submit_recitation
      { verseId := some vid, recitation := some rec, score := some score,
        hasDiff := d, correctAnswer := ca } existing now =
      SubmitOutcome.success vid score (decide (90 ≤ score))
        (if d then process_recitation_errors rec ca else [])
        (update_progress existing score (decide (90 ≤ score)) now) ∧
    submit_recitation
      { verseId := none, recitation := some rec, score := some score,
        hasDiff := d, correctAnswer := ca } existing now =
      SubmitOutcome.missingFields :=
  ⟨rfl, rfl⟩

theorem no_validation_beyond_presence_witness :
    ¬((0 : ℚ) ≤ 150 ∧ (150 : ℚ) ≤ 100) ∧
    (submit_recitation
      { verseId := some 7, recitation := some [], score := some 150,
        hasDiff := false, correctAnswer := [] } none 5 =
      SubmitOutcome.success 7 150 (decide ((90 : ℚ) ≤ 150))
        (if false then process_recitation_errors [] [] else [])
        (update_progress none 150 (decide ((90 : ℚ) ≤ 150)) 5) ∧
    submit_recitation
      { verseId := none, recitation := some [], score := some 150,
        hasDiff := false, correctAnswer := [] } none 5 =
      SubmitOutcome.missingFields) :=
  ⟨by norm_num, no_validation_beyond_presence 7 [] 150 false [] none 5 (by norm_num)⟩

/-- Claim C7 counterexample: for three rows with best scores 95, 96, 96 the
returned `average_best_score` is 95.7 — the mean 287/3 rounded to one
decimal — and not the mean itself, refuting the claim that
`average_best_score` is the unrounded mean of the best scores. -/
theorem average_best_not_mean_cex :
    (get_my_progress_summary
      [{ is_memorized := true, best_score := 95, total_attempts := 1 },
       { is_memorized := false, best_score := 96, total_attempts := 1 },
       { is_memorized := false, best_score := 96, total_attempts := 1 }]).average_best_score ≠
      (95 + 96 + 96) / 3 ∧
    (get_my_progress_summary
      [{ is_memorized := true, best_score := 95, total_attempts := 1 },
       { is_memorized := false, best_score := 96, total_attempts := 1 },
       { is_memorized := false, best_score := 96, total_attempts := 1 }]).average_best_score =
      957 / 10 := by
  have hfloor : ⌊(287 / 3 : ℚ) * 10⌋ = 956 := by
    rw [Int.floor_eq_iff]
    norm_num
  have h2 : pyRound1 ((287 : ℚ) / 3) = 957 / 10 := by
    rw [pyRound1_of_floor _ 956 hfloor]
    norm_num
  have hA :
      (get_my_progress_summary
        [{ is_memorized := true, best_score := 95, total_attempts := 1 },
         { is_memorized := false, best_score := 96, total_attempts := 1 },
         { is_memorized := false, best_score := 96, total_attempts := 1 }]).average_best_score =
        pyRound1 ((287 : ℚ) / 3) := by
    unfold get_my_progress_summary
    rw [if_neg (List.cons_ne_nil _ _)]
    norm_num
  constructor
  · rw [hA, h2]
    norm_num
  · rw [hA, h2]

/-- Claim C7 (amended): for a student's progress rows the summary reports
the row count, the count of memorized rows, the mean best score rounded to
one decimal, the summed attempt count, and the completion percentage
rounded to one decimal; with no rows every statistic is 0. -/
theorem summary_fields_rounded (rows : List ProgressRow) (h : rows ≠ []) :
    get_my_progress_summary rows =
      { total_verses_attempted := rows.length
        verses_memorized := (rows.filter (fun p => p.is_memorized)).length
        average_best_score :=
          pyRound1 ((rows.map (fun p => p.best_score)).sum / rows.length)
        total_attempts := (rows.map (fun p => p.total_attempts)).sum
        completion_rate :=
          pyRound1
            (((rows.filter (fun p => p.is_memorized)).length : ℚ) /
              rows.length * 100) } ∧
    get_my_progress_summary [] =
      { total_verses_attempted := 0
        verses_memorized := 0
        average_best_score := 0
        total_attempts := 0
        completion_rate := 0 } := by
  refine ⟨?_, rfl⟩
  simp [get_my_progress_summary, h]

theorem summary_fields_rounded_witness :
    ([{ is_memorized := true, best_score := 100, total_attempts := 3 },
      { is_memorized := false, best_score := 60, total_attempts := 2 }] :
        List ProgressRow) ≠ [] ∧
    get_my_progress_summary
      [{ is_memorized := true, best_score := 100, total_attempts := 3 },
       { is_memorized := false, best_score := 60, total_attempts := 2 }] =
      { total_verses_attempted := 2
        verses_memorized := 1
        average_best_score := 80
        total_attempts := 5
        completion_rate := 50 } :=
  ⟨by decide,
   ((summary_fields_rounded
      [{ is_memorized := true, best_score := 100, total_attempts := 3 },
       { is_memorized := false, best_score := 60, total_attempts := 2 }]
      (by decide)).1).trans (by
        have hf1 : ⌊(80 : ℚ) * 10⌋ = 800 := by
          rw [Int.floor_eq_iff]
          norm_num
        have hf2 : ⌊(50 : ℚ) * 10⌋ = 500 := by
          rw [Int.floor_eq_iff]
          norm_num
        have hA : pyRound1 (80 : ℚ) = 80 := by
          rw [pyRound1_of_floor _ 800 hf1]
          norm_num
        have hB : pyRound1 (50 : ℚ) = 50 := by
          rw [pyRound1_of_floor _ 500 hf2]
          norm_num
        norm_num [Summary.mk.injEq, hA, hB])⟩

/-- Lower-casing a code point twice is the same as doing it once. -/
theorem lowerCode_idem (n : Nat) : lowerCode (lowerCode n) = lowerCode n := by
  unfold lowerCode
  split_ifs <;> omega

/-- The replace worker leaves the empty string alone at any fuel. -/
theorem pyReplaceAux_nil (fuel : Nat) (old new : List Nat) :
    pyReplaceAux fuel old new [] = [] := by
  cases fuel <;> rfl

/-- With enough fuel, replacing the one-character pattern `-` by a space is
the pointwise map `hyphenRepl`. -/
theorem pyReplace_single_eq_map :
    ∀ (fuel : Nat) (s : List Nat), s.length ≤ fuel →
      pyReplaceAux fuel [45] [32] s = s.map hyphenRepl := by
  intro fuel
  induction fuel with
  | zero =>
    intro s hs
    have h0 : s = [] := List.length_eq_zero.mp (Nat.le_zero.mp hs)
    subst h0
    rfl
  | succ n ih =>
    intro s hs
    cases s with
    | nil => rfl
    | cons c rest =>
      have hlen : rest.length ≤ n := by
        simp only [List.length_cons] at hs
        omega
      by_cases hc : c = 45
      · subst hc
        simp [pyReplaceAux, List.isPrefixOf, hyphenRepl, ih rest hlen]
      · have h45 : (45 == c) = false := by
          simp [Ne.symm hc]
        simp [pyReplaceAux, List.isPrefixOf, h45, hyphenRepl, hc, ih rest hlen]

/-- With enough fuel, replacing the two-space pattern by one space is the
single-pass collapse `collapseDoubleSpace`. -/
theorem pyReplace_double_eq_collapse :
    ∀ (fuel : Nat) (s : List Nat), s.length ≤ fuel →
      pyReplaceAux fuel [32, 32] [32] s = collapseDoubleSpace s := by
  intro fuel
  induction fuel with
  | zero =>
    intro s hs
    have h0 : s = [] := List.length_eq_zero.mp (Nat.le_zero.mp hs)
    subst h0
    rfl
  | succ n ih =>
    intro s hs
    match s with
    | [] => rfl
    | [c] =>
      simp [pyReplaceAux, List.isPrefixOf, collapseDoubleSpace, pyReplaceAux_nil]
    | c :: d :: t =>
      have hlen2 : t.length ≤ n := by
        simp only [List.length_cons] at hs
        omega
      have hlen1 : (d :: t).length ≤ n := by
        simp only [List.length_cons] at hs ⊢
        omega
      by_cases hc : c = 32 ∧ d = 32
      · obtain ⟨hc1, hc2⟩ := hc
        subst hc1
        subst hc2
        simp [pyReplaceAux, List.isPrefixOf, collapseDoubleSpace, ih t hlen2]
      · rcases eq_or_ne c 32 with h1 | h1
        · have h2 : d ≠ 32 := fun hd => hc ⟨h1, hd⟩
          subst h1
          have hb : (32 == d) = false := by simp [Ne.symm h2]
          have hb' : (d == 32) = false := by simp [h2]
          simp [pyReplaceAux, List.isPrefixOf, collapseDoubleSpace, hb, hb',
            ih (d :: t) hlen1]
        · have ha : (32 == c) = false := by simp [Ne.symm h1]
          have ha' : (c == 32) = false := by simp [h1]
          simp [pyReplaceAux, List.isPrefixOf, collapseDoubleSpace, ha, ha',
            ih (d :: t) hlen1]

/-- A string with no two consecutive spaces is unchanged by the collapse. -/
theorem collapse_eq_self :
    ∀ l : List Nat, hasDoubleSpace l = false → collapseDoubleSpace l = l := by
  intro l
  induction l with
  | nil => intro _; rfl
  | cons c tl ih =>
    intro h
    cases tl with
    | nil => rfl
    | cons d t =>
      simp only [hasDoubleSpace, Bool.or_eq_false_iff] at h
      simp only [collapseDoubleSpace, h.1, Bool.false_eq_true, if_false]
      rw [ih h.2]

/-- Every character of the collapsed string is a space or a character of
the original. -/
theorem mem_collapse :
    ∀ (l : List Nat) (x : Nat), x ∈ collapseDoubleSpace l → x = 32 ∨ x ∈ l := by
  intro l
  induction l using collapseDoubleSpace.induct with
  | case1 =>
    intro x hx
    simp [collapseDoubleSpace] at hx
  | case2 c =>
    intro x hx
    simp only [collapseDoubleSpace] at hx
    exact Or.inr hx
  | case3 c d t hcond ih =>
    intro x hx
    simp only [collapseDoubleSpace, hcond, if_true] at hx
    rcases List.mem_cons.mp hx with h32 | hx2
    · exact Or.inl h32
    · rcases ih x hx2 with h32 | hxt
      · exact Or.inl h32
      · exact Or.inr (List.mem_cons_of_mem _ (List.mem_cons_of_mem _ hxt))
  | case4 c d t hcond ih =>
    intro x hx
    simp only [collapseDoubleSpace, hcond, if_false] at hx
    rcases List.mem_cons.mp hx with hxc | hx2
    · exact Or.inr (hxc ▸ List.mem_cons_self _ _)
    · rcases ih x hx2 with h32 | hxt
      · exact Or.inl h32
      · exact Or.inr (List.mem_cons_of_mem _ hxt)

/-- A map that fixes every element of a list leaves the list unchanged. -/
theorem map_eq_self_on {f : Nat → Nat} :
    ∀ l : List Nat, (∀ c ∈ l, f c = c) → l.map f = l := by
  intro l
  induction l with
  | nil => intro _; rfl
  | cons a t ih =>
    intro h
    rw [List.map_cons, h a (List.mem_cons_self a t),
      ih (fun x hx => h x (List.mem_cons_of_mem a hx))]

/-- `dropWhile` is the identity on a string that does not start with
whitespace. -/
theorem dropWhile_eq_self_of {l : List Nat}
    (h : startsWithSpaceB l = false) : l.dropWhile isPySpace = l := by
  cases l with
  | nil => rfl
  | cons c t =>
    have hc : isPySpace c = false := h
    rw [List.dropWhile_cons]
    simp [hc]

/-- `pyStrip` is the identity on a string with no whitespace at either
end. -/
theorem pyStrip_eq_self {l : List Nat} (h1 : startsWithSpaceB l = false)
    (h2 : endsWithSpaceB l = false) : pyStrip l = l := by
  unfold pyStrip
  rw [dropWhile_eq_self_of h1, dropWhile_eq_self_of h2, List.reverse_reverse]

/-- Characters survive `pyStrip`ping into the original string. -/
theorem mem_pyStrip {l : List Nat} {x : Nat} (h : x ∈ pyStrip l) : x ∈ l := by
  unfold pyStrip at h
  rw [List.mem_reverse] at h
  have h1 := (List.dropWhile_sublist (l := (l.dropWhile isPySpace).reverse) isPySpace).subset h
  rw [List.mem_reverse] at h1
  exact (List.dropWhile_sublist isPySpace).subset h1

/-- `normalize_string` written as the sequence of steps it performs:
lower-case, strip leading/trailing whitespace, remove punctuation, map
hyphens to spaces, collapse double spaces in one pass — with no trailing
strip. -/
theorem normalize_eq_steps (text : List Nat) :
    normalize_string text =
      collapseDoubleSpace
        ((reSubPunct (pyStrip (pyLower text))).map hyphenRepl) := by
  unfold normalize_string pyReplace
  rw [pyReplace_single_eq_map _ _ (Nat.le_refl _),
    pyReplace_double_eq_collapse _ _ (Nat.le_refl _)]

/-- Every character of a normalized string is lower-case-fixed, outside the
punctuation class, and not a hyphen. -/
theorem mem_normalize_good (x : List Nat) (c : Nat)
    (hc : c ∈ normalize_string x) :
    lowerCode c = c ∧ punctCodes.contains c = false ∧ c ≠ 45 := by
  rw [normalize_eq_steps] at hc
  rcases mem_collapse _ _ hc with h32 | hc2
  · subst h32
    exact ⟨by decide, by decide, by decide⟩
  · obtain ⟨d, hd, hrepl⟩ := List.mem_map.mp hc2
    unfold reSubPunct at hd
    obtain ⟨hd1, hd2⟩ := List.mem_filter.mp hd
    have hd2' : punctCodes.contains d = false := by
      simpa using hd2
    have hd3 : d ∈ pyLower x := mem_pyStrip hd1
    unfold pyLower at hd3
    obtain ⟨e, _, hlo⟩ := List.mem_map.mp hd3
    have hfix : lowerCode d = d := by
      rw [← hlo, lowerCode_idem]
    by_cases h45 : d = 45
    · have hc32 : c = 32 := by
        rw [← hrepl, h45]
        rfl
      subst hc32
      exact ⟨by decide, by decide, by decide⟩
    · have hcd : c = d := by
        rw [← hrepl]
        simp [hyphenRepl, h45]
      subst hcd
      exact ⟨hfix, hd2', h45⟩

/-- Two `filterMap`s agree when their functions agree on the list. -/
theorem filterMap_eq_on {α β : Type} {f g : α → Option β} :
    ∀ l : List α, (∀ a ∈ l, f a = g a) → l.filterMap f = l.filterMap g := by
  intro l
  induction l with
  | nil => intro _; rfl
  | cons a t ih =>
    intro h
    rw [List.filterMap_cons, List.filterMap_cons, h a (List.mem_cons_self a t),
      ih (fun x hx => h x (List.mem_cons_of_mem a hx))]

/-- The per-index loop of the source equals the claim's per-index case
split. -/
theorem mainErrors_eq_spec (sub ref : List Word) :
    mainErrors sub ref = alignSpecMain sub ref := by
  unfold mainErrors alignSpecMain
  apply filterMap_eq_on
  intro i _
  by_cases h1 : sub.length ≤ i
  · simp [h1]
  · by_cases h2 : sub.getD i [] = ref.getD i []
    · simp [h1, h2]
    · simp [h1, h2]

/-- The trailing-words loop of the source equals the claim's description of
the extra-word rows. -/
theorem extraErrors_eq_spec (sub ref : List Word) :
    extraErrors sub ref = alignSpecExtras sub ref := by
  unfold extraErrors alignSpecExtras
  by_cases h : ref.length < sub.length
  · rw [if_pos h, if_pos h, List.range'_eq_map_range, List.map_map]
    rfl
  · rw [if_neg h, if_neg h]

/-- Claim C1: for a non-empty reference, the alignment emits, in index
order, a `missing_word` row at each reference index past the end of the
submission, a `wrong_word` row at each index where the tokens differ, no
row at matching indices, and then one `extra_word` row per trailing
submitted token at the following reference-relative positions, with
contexts of up to 3 reference tokens joined by single spaces (before-only
for extra words). -/
theorem align_matches_spec (sub ref : List Word) (_h : ref ≠ []) :
    align sub ref = alignSpec sub ref := by
  unfold align alignSpec
  rw [mainErrors_eq_spec, extraErrors_eq_spec]

theorem align_matches_spec_witness :
    (splitWs (strCodes ("for god so loved the world")) ≠ []) ∧
    align (splitWs (strCodes ("for god so loves the world")))
        (splitWs (strCodes ("for god so loved the world"))) =
      alignSpec (splitWs (strCodes ("for god so loves the world")))
        (splitWs (strCodes ("for god so loved the world"))) ∧
    align (splitWs (strCodes ("for god so loves the world")))
        (splitWs (strCodes ("for god so loved the world"))) =
      [{ error_type := ErrorType.wrong_word
         position := 3
         expected_word := some (strCodes ("loved"))
         actual_word := some (strCodes ("loves"))
         context_before := strCodes ("for god so")
         context_after := strCodes ("the world") }] :=
  ⟨by decide, align_matches_spec _ _ (by decide), by decide⟩

/-- Claim C8 counterexample: the input `". a"` contains no run of two or
more spaces, yet normalizing it twice differs from normalizing it once —
`normalize_string` maps it to `" a"` (the leading space uncovered by
removing the period is never trimmed) and a second pass strips that space.
So normalize is not idempotent even away from the multi-space-run
limitation. -/
theorem normalize_not_idempotent_cex :
    hasDoubleSpace (strCodes (". a")) = false ∧
    normalize_string (normalize_string (strCodes (". a"))) ≠
      normalize_string (strCodes (". a")) := by
  decide

/-- Sufficiency half of the idempotence characterization: a normalized
string with no edge whitespace and no double space is a fixed point of
`normalize_string`. -/
theorem normalize_idem_of_clean (x : List Nat)
    (h1 : startsWithSpaceB (normalize_string x) = false)
    (h2 : endsWithSpaceB (normalize_string x) = false)
    (h3 : hasDoubleSpace (normalize_string x) = false) :
    normalize_string (normalize_string x) = normalize_string x := by
  have good : ∀ c ∈ normalize_string x,
      lowerCode c = c ∧ punctCodes.contains c = false ∧ c ≠ 45 :=
    fun c hc => mem_normalize_good x c hc
  have hlower : pyLower (normalize_string x) = normalize_string x := by
    unfold pyLower
    exact map_eq_self_on _ (fun c hc => (good c hc).1)
  have hstrip : pyStrip (normalize_string x) = normalize_string x :=
    pyStrip_eq_self h1 h2
  have hpunct : reSubPunct (normalize_string x) = normalize_string x := by
    unfold reSubPunct
    apply List.filter_eq_self.mpr
    intro a ha
    simpa using (good a ha).2.1
  have hhyph :
      (normalize_string x).map hyphenRepl = normalize_string x :=
    map_eq_self_on _ (fun c hc => by simp [hyphenRepl, (good c hc).2.2])
  have hcoll :
      collapseDoubleSpace (normalize_string x) = normalize_string x :=
    collapse_eq_self _ h3
  rw [normalize_eq_steps (normalize_string x), hlower, hstrip, hpunct,
    hhyph, hcoll]

/-- The collapse never lengthens a string. -/
theorem collapse_length_le :
    ∀ l : List Nat, (collapseDoubleSpace l).length ≤ l.length := by
  intro l
  induction l using collapseDoubleSpace.induct with
  | case1 => simp [collapseDoubleSpace]
  | case2 c => simp [collapseDoubleSpace]
  | case3 c d t hcond ih =>
    simp only [collapseDoubleSpace, hcond, if_true, List.length_cons]
    omega
  | case4 c d t hcond ih =>
    simp only [List.length_cons] at ih
    simp only [collapseDoubleSpace, hcond, Bool.false_eq_true, if_false,
      List.length_cons]
    omega

/-- The collapse strictly shortens a string containing a double space. -/
theorem collapse_length_lt_of_double :
    ∀ l : List Nat, hasDoubleSpace l = true →
      (collapseDoubleSpace l).length < l.length := by
  intro l
  induction l using collapseDoubleSpace.induct with
  | case1 =>
    intro h
    exact absurd h (by decide)
  | case2 c =>
    intro h
    have h0 : hasDoubleSpace [c] = false := rfl
    rw [h0] at h
    simp at h
  | case3 c d t hcond _ =>
    intro _
    have hle := collapse_length_le t
    simp only [collapseDoubleSpace, hcond, if_true, List.length_cons]
    omega
  | case4 c d t hcond ih =>
    intro h
    have h2 : hasDoubleSpace (d :: t) = true := by
      simp only [hasDoubleSpace, Bool.or_eq_true] at h
      rcases h with h | h
      · exact absurd h hcond
      · exact h
    have hlt := ih h2
    simp only [List.length_cons] at hlt
    simp only [collapseDoubleSpace, hcond, Bool.false_eq_true, if_false,
      List.length_cons]
    omega

/-- Dropping leading whitespace strictly shortens a string that starts
with whitespace. -/
theorem dropWhile_length_lt_of_start {l : List Nat}
    (h : startsWithSpaceB l = true) :
    (l.dropWhile isPySpace).length < l.length := by
  cases l with
  | nil => exact absurd h (by decide)
  | cons c t =>
    have hc : isPySpace c = true := h
    rw [List.dropWhile_cons, if_pos hc]
    have := (List.dropWhile_sublist (l := t) isPySpace).length_le
    simp only [List.length_cons]
    omega

/-- `pyStrip` strictly shortens a string with whitespace at either end. -/
theorem pyStrip_length_lt (l : List Nat)
    (h : startsWithSpaceB l = true ∨ endsWithSpaceB l = true) :
    (pyStrip l).length < l.length := by
  unfold pyStrip
  rw [List.length_reverse]
  by_cases hs : startsWithSpaceB l = true
  · have h1 : (l.dropWhile isPySpace).length < l.length :=
      dropWhile_length_lt_of_start hs
    have h2 :=
      (List.dropWhile_sublist (l := (l.dropWhile isPySpace).reverse)
        isPySpace).length_le
    rw [List.length_reverse] at h2
    omega
  · have hs' : startsWithSpaceB l = false := by
      cases hb : startsWithSpaceB l
      · rfl
      · exact absurd hb hs
    have he : endsWithSpaceB l = true := by
      rcases h with h | h
      · exact absurd h hs
      · exact h
    rw [dropWhile_eq_self_of hs']
    have := dropWhile_length_lt_of_start (l := l.reverse) he
    rwa [List.length_reverse] at this

/-- Necessity half of the idempotence characterization: when the
normalized string still carries leading or trailing whitespace or a double
space, a second normalization strictly shortens it, so normalize is not
idempotent there. -/
theorem normalize_not_idem_of_unclean (x : List Nat)
    (h : startsWithSpaceB (normalize_string x) = true ∨
      endsWithSpaceB (normalize_string x) = true ∨
      hasDoubleSpace (normalize_string x) = true) :
    normalize_string (normalize_string x) ≠ normalize_string x := by
  have good : ∀ c ∈ normalize_string x,
      lowerCode c = c ∧ punctCodes.contains c = false ∧ c ≠ 45 :=
    fun c hc => mem_normalize_good x c hc
  have hlower : pyLower (normalize_string x) = normalize_string x := by
    unfold pyLower
    exact map_eq_self_on _ (fun c hc => (good c hc).1)
  have hlen : (normalize_string (normalize_string x)).length <
      (normalize_string x).length := by
    by_cases hs : startsWithSpaceB (normalize_string x) = true ∨
        endsWithSpaceB (normalize_string x) = true
    · have h1 : (pyStrip (normalize_string x)).length <
          (normalize_string x).length := pyStrip_length_lt _ hs
      calc (normalize_string (normalize_string x)).length
          = (collapseDoubleSpace
              ((reSubPunct (pyStrip (pyLower (normalize_string x)))).map
                hyphenRepl)).length := by
            rw [normalize_eq_steps]
        _ ≤ ((reSubPunct (pyStrip (pyLower (normalize_string x)))).map
              hyphenRepl).length := collapse_length_le _
        _ = (reSubPunct (pyStrip (pyLower (normalize_string x)))).length := by
            rw [List.length_map]
        _ ≤ (pyStrip (pyLower (normalize_string x))).length := by
            unfold reSubPunct
            exact List.length_filter_le _ _
        _ = (pyStrip (normalize_string x)).length := by rw [hlower]
        _ < (normalize_string x).length := h1
    · have hs1 : startsWithSpaceB (normalize_string x) = false := by
        cases hb : startsWithSpaceB (normalize_string x)
        · rfl
        · exact absurd (Or.inl hb) hs
      have hs2 : endsWithSpaceB (normalize_string x) = false := by
        cases hb : endsWithSpaceB (normalize_string x)
        · rfl
        · exact absurd (Or.inr hb) hs
      have hd : hasDoubleSpace (normalize_string x) = true := by
        rcases h with h | h | h
        · exact absurd (Or.inl h) hs
        · exact absurd (Or.inr h) hs
        · exact h
      have hstrip : pyStrip (normalize_string x) = normalize_string x :=
        pyStrip_eq_self hs1 hs2
      have hpunct : reSubPunct (normalize_string x) = normalize_string x := by
        unfold reSubPunct
        apply List.filter_eq_self.mpr
        intro a ha
        simpa using (good a ha).2.1
      have hhyph :
          (normalize_string x).map hyphenRepl = normalize_string x :=
        map_eq_self_on _ (fun c hc => by simp [hyphenRepl, (good c hc).2.2])
      rw [normalize_eq_steps, hlower, hstrip, hpunct, hhyph]
      exact collapse_length_lt_of_double _ hd
  intro heq
  rw [heq] at hlen
  exact absurd hlen (lt_irrefl _)

/-- Claim C8 (amended): `normalize_string` is idempotent exactly on the
inputs whose normalized form has no leading or trailing whitespace and no
two consecutive spaces — idempotence holds on every such input and fails
on every other, i.e. whenever punctuation stripping or hyphen replacement
leaves edge whitespace (there is no final trim) or a double space
survives the single collapse pass. -/
theorem normalize_idempotent_iff_clean (x : List Nat) :
    normalize_string (normalize_string x) = normalize_string x ↔
      (startsWithSpaceB (normalize_string x) = false ∧
       endsWithSpaceB (normalize_string x) = false ∧
       hasDoubleSpace (normalize_string x) = false) := by
  constructor
  · intro heq
    cases h1 : startsWithSpaceB (normalize_string x) with
    | true => exact absurd heq (normalize_not_idem_of_unclean x (Or.inl h1))
    | false =>
      cases h2 : endsWithSpaceB (normalize_string x) with
      | true =>
        exact absurd heq
          (normalize_not_idem_of_unclean x (Or.inr (Or.inl h2)))
      | false =>
        cases h3 : hasDoubleSpace (normalize_string x) with
        | true =>
          exact absurd heq
            (normalize_not_idem_of_unclean x (Or.inr (Or.inr h3)))
        | false => exact ⟨rfl, rfl, rfl⟩
  · intro hclean
    exact normalize_idem_of_clean x hclean.1 hclean.2.1 hclean.2.2

theorem normalize_idempotent_iff_clean_witness :
    (normalize_string (normalize_string (strCodes ("Hello, world"))) =
      normalize_string (strCodes ("Hello, world"))) ∧
    normalize_string (normalize_string (strCodes (". a"))) ≠
      normalize_string (strCodes (". a")) :=
  ⟨(normalize_idempotent_iff_clean (strCodes ("Hello, world"))).mpr
      ⟨by decide, by decide, by decide⟩,
   fun heq =>
     absurd ((normalize_idempotent_iff_clean (strCodes (". a"))).mp heq).1
       (by decide)⟩

/-- Claim C9 counterexample: on `". a"` the source's normalization differs
from the claimed step order (lower-case, strip punctuation, replace
hyphens, collapse double spaces, then trim): the source output starts with
a space, refuting in particular the claim that the normalized string never
has leading or trailing whitespace. -/
theorem normalize_order_cex :
    normalize_string (strCodes (". a")) ≠
      normalizeSpecOrder (strCodes (". a")) ∧
    startsWithSpaceB (normalize_string (strCodes (". a"))) = true := by
  decide

/-- Claim C9 (amended): `normalize_string` applies exactly these steps in
this order: lower-case the whole string; trim leading/trailing whitespace;
strip the fixed punctuation character class; replace hyphens with spaces;
collapse the literal two-space sequence in a single left-to-right pass.
There is no final trim, so the result can retain leading or trailing
whitespace uncovered by the later steps. -/
theorem normalize_steps_order (text : List Nat) :
    normalize_string text =
      collapseDoubleSpace
        ((reSubPunct (pyStrip (pyLower text))).map hyphenRepl) :=
  normalize_eq_steps text

/-- Claim C10: error rows are produced only when the payload has a `diff`
key and the comparison text is non-empty — without the `diff` key no rows
are produced even when a reference text is supplied; with an empty
comparison text `process_recitation_errors` returns without producing any
row, and the submission as a whole stores none. -/
theorem diff_gating (vid : Nat) (rec : List Nat) (score : ℚ) (ca : List Nat)
    (existing : Option ProgressSummary) (now : Nat) (u : List Nat) :
    outcomeErrors
      (submit_recitation
        { verseId := some vid, recitation := some rec, score := some score,
          hasDiff := false, correctAnswer := ca } existing now) = [] ∧
    process_recitation_errors u [] = [] ∧
    outcomeErrors
      (submit_recitation
        { verseId := some vid, recitation := some rec, score := some score,
          hasDiff := true, correctAnswer := [] } existing now) = [] :=
  ⟨rfl, rfl, rfl⟩

end BibleMemorizer
